import Mathlib

/-!
Shallow embedding of the `goc` transpiler back end (`main.go`): the
formatting buffer (`Printer`), the Go AST subset the emitter consumes, and
the recursive visit functions `VisitExpr`, `VisitStmt`, `VisitBlockStmt`,
`VisitFunction`, `VisitSpec`, `VisitDecl`, `VisitFile`.  `log.Fatal` calls
and Go slice index-out-of-range panics are modelled as `Except` errors.
-/

namespace Goc

/-- Distinguishes the two ways the Go program can die: `log.Fatal` (a
deliberate diagnostic abort) and a runtime panic (slice index out of range). -/
inductive EmitErr where
  | fatal (msg : String)
  | panicIdx (msg : String)
deriving Repr, DecidableEq

/-- The `Printer` struct of main.go: an accumulating text buffer
(`bytes.Buffer`) plus an indentation counter. -/
structure Printer where
  out : String
  indent : Nat
deriving Repr, DecidableEq

deriving instance DecidableEq for Except

/-- Go `new(Printer)`: empty buffer, indent 0. -/
def Printer.new : Printer := ⟨"", 0⟩

/-- Method `P` of the printer: append raw text, no indentation, no newline. -/
def Printer.P (p : Printer) (s : String) : Printer := ⟨p.out ++ s, p.indent⟩

/-- Indentation produced by the loop in `Pi`: four spaces per level. -/
def indentStr (n : Nat) : String := String.join (List.replicate n "    ")

/-- Method `Pi` of the printer: write the indentation spaces, then the formatted text. -/
def Printer.Pi (p : Printer) (s : String) : Printer :=
  ⟨p.out ++ indentStr p.indent ++ s, p.indent⟩

/-- Method `Pln` of the printer: `Pi` followed by `fmt.Fprintln(p)`, i.e. a final newline. -/
def Printer.Pln (p : Printer) (s : String) : Printer :=
  ⟨p.out ++ indentStr p.indent ++ s ++ "\n", p.indent⟩

/-- Method `Indent` of the printer. -/
def Printer.Indent (p : Printer) : Printer := ⟨p.out, p.indent + 1⟩

/-- Method `Unindent` of the printer: decrements but never below zero, exactly as the Go
guard `if p.indent > 0`. On `Nat` this is truncated subtraction. -/
def Printer.Unindent (p : Printer) : Printer := ⟨p.out, p.indent - 1⟩

/-- Go `strings.TrimRight(s, cutset)`: remove all trailing characters that
belong to the cutset. -/
def trimRightSet (s : String) (cut : List Char) : String :=
  ⟨((s.data.reverse).dropWhile (fun c => cut.contains c)).reverse⟩

/-- Character-list core of `fprintfNoArgs` below.  A percent sign doubled
emits one percent sign; a percent sign at the end of the format emits
`%!(NOVERB)`; a percent sign followed by a verb character `c` emits
`%!c(MISSING)` (there is no operand to consume); everything else passes
through verbatim. -/
def fprintfGo : List Char → List Char
  | [] => []
  | c :: rest =>
      if c = '%' then
        match rest with
        | [] => "%!(NOVERB)".data
        | d :: rest2 =>
            if d = '%' then '%' :: fprintfGo rest2
            else '%' :: '!' :: d :: ("(MISSING)".data ++ fprintfGo rest2)
      else c :: fprintfGo rest

/-- Go `fmt.Fprintf(w, f)` with NO operand arguments, as `p.P(s)` invokes
it when a caller passes a non-literal string (an operator token or an
identifier name) as the format itself.  Restricted to formats whose `%`
is not followed by flag or width characters — the only strings the
program feeds it are operator tokens and identifiers, where `%` occurs
solely as the bare modulo token. -/
def fprintfNoArgs (s : String) : String := ⟨fprintfGo s.data⟩

/-- Percent-free format strings pass through `fprintfGo` unchanged. -/
theorem fprintfGo_no_pct (l : List Char) (h : '%' ∉ l) : fprintfGo l = l := by
  induction l with
  | nil => rfl
  | cons c rest ih =>
      simp only [List.mem_cons, not_or] at h
      obtain ⟨h1, h2⟩ := h
      have hc : ¬ c = '%' := fun e => h1 e.symm
      rw [fprintfGo.eq_def]
      simp only [if_neg hc, ih h2]

/-- Percent-free strings (every operator token except modulo, and every
identifier) pass through the zero-operand Fprintf unchanged. -/
theorem fprintfNoArgs_no_pct (s : String) (h : '%' ∉ s.data) : fprintfNoArgs s = s := by
  obtain ⟨l⟩ := s
  unfold fprintfNoArgs
  rw [fprintfGo_no_pct l h]

/-- The Go AST expression subset the emitter inspects, one constructor per
`ast` node type that appears in a `switch` of main.go; `other` stands for
any further `ast.Expr` dynamic type (none of the switches has a matching
case for those, and none has a `default`, so they are silently skipped).
`arrayType` and `structType` are `ast.Expr`s in Go; they are matched only
by `VisitSpec`, never by `VisitExpr`. -/
inductive Expr where
  | basicLit (value : String)
  | ident (name : String)
  | selector (x : Expr) (sel : String)
  | binary (x : Expr) (op : String) (y : Expr)
  | unary (op : String) (x : Expr)
  | star (x : Expr)
  | index (x : Expr) (idx : Expr)
  | call (fn : Expr) (args : List Expr)
  | arrayType (elt : Expr) (len : Expr)
  | structType (fields : List (Expr × List String))
  | other (kind : String)

/-- An `ast.Field`: a type expression together with the declared names
(Go allows several names per field, or none). -/
def Field : Type := Expr × List String

/-- The field's type expression (`n.Type`). -/
def Field.ty (f : Field) : Expr := f.1

/-- The field's name list (`n.Names`). -/
def Field.names (f : Field) : List String := f.2

mutual

/-- Function `VisitExpr` of main.go: appends the rendering of the expression to the
printer via `p.P`; unrecognized dynamic types fall through the switch and
write nothing.  The `binary` case carries the body of `VisitBinExpr`
inlined (the source calls `VisitBinExpr(p, t)` there; `VisitBinExpr` is
recovered below as a definitional equality).  Where the source passes a
non-literal string directly as the Fprintf format — `p.P(t.Name)` for
identifiers and `p.P(t.Op.String())` for unary and binary operators — the
model applies `fprintfNoArgs`, because `P` hands that string to
`fmt.Fprintf` with no operands (so the modulo token `%` does NOT emit as
its own text). -/
def VisitExpr (p : Printer) (n : Expr) : Printer :=
  match n with
  | .basicLit v => p.P v
  | .ident name => p.P (fprintfNoArgs name)
  | .selector x sel => (VisitExpr p x).P ("." ++ sel)
  | .binary x op y => (VisitExpr ((VisitExpr (p.P "(") x).P (fprintfNoArgs op)) y).P ")"
  | .unary op x => VisitExpr (p.P (fprintfNoArgs op)) x
  | .star x => VisitExpr (p.P "*") x
  | .index x idx => ((VisitExpr ((VisitExpr p x).P "[") idx)).P "]"
  | .call fn args =>
      (VisitExpr p fn).P ("(" ++ String.intercalate ", " (visitArgs args) ++ ")")
  | .arrayType _ _ => p
  | .structType _ => p
  | .other _ => p

/-- The argument loop of the `CallExpr` case: each argument rendered into
its own fresh scratch printer, exactly `expr(arg)` in the Go loop. -/
def visitArgs (args : List Expr) : List String :=
  match args with
  | [] => []
  | a :: rest => (VisitExpr Printer.new a).out :: visitArgs rest

end

/-- Function `VisitBinExpr` of main.go: left operand, then
`p.P(n.Op.String())` — the operator token handed to Fprintf as a
zero-operand format string — then the right operand, with no surrounding
spaces. -/
def VisitBinExpr (p : Printer) (x : Expr) (op : String) (y : Expr) : Printer :=
  VisitExpr ((VisitExpr p x).P (fprintfNoArgs op)) y

/-- The helper `expr` of main.go: render one expression into a fresh
scratch printer and return the accumulated string. -/
def expr (n : Expr) : String := (VisitExpr Printer.new n).out

/-- The `binary` case of `VisitExpr` is exactly `p.P("(")`, `VisitBinExpr`,
`p.P(")")`, as written in the source. -/
theorem visitExpr_binary_eq_visitBinExpr (p : Printer) (x : Expr) (op : String) (y : Expr) :
    VisitExpr p (.binary x op y) = (VisitBinExpr (p.P "(") x op y).P ")" := rfl

/-- The helper `field` of main.go: `<type> <name0>` with the pointer
special case `<pointee>* <name0>`; `n.Names[0]` panics when the name list
is empty. -/
def field (n : Field) : Except EmitErr String :=
  match n.ty with
  | .star x =>
      match n.names with
      | [] => .error (.panicIdx "field names index out of range")
      | name :: _ => .ok (expr x ++ "* " ++ name)
  | t =>
      match n.names with
      | [] => .error (.panicIdx "field names index out of range")
      | name :: _ => .ok (expr t ++ " " ++ name)

/-- Go `(*ast.FieldList).NumFields()`: sum of the name counts, an unnamed
field counting as one. -/
def numFields (l : List Field) : Nat :=
  l.foldl (fun n f => n + (if f.names.length = 0 then 1 else f.names.length)) 0

/-- The parameter loop of `VisitFunction`: `field(f)` for each field, in
order (a panic in any `field` call aborts the run). -/
def fieldStrs (l : List Field) : Except EmitErr (List String) :=
  match l with
  | [] => .ok []
  | f :: rest =>
      match field f with
      | .error e => .error e
      | .ok s =>
          match fieldStrs rest with
          | .error e => .error e
          | .ok tail => .ok (s :: tail)

/-- Go standard library `strconv.Unquote`, restricted to plain
double-quoted strings without escapes or inner quotes (the only form the
repository's import paths take); other inputs yield the error case, which
`VisitSpec` ignores, leaving the zero value `""`. -/
def unquote (s : String) : Option String :=
  match s.data with
  | [] => none
  | c :: rest =>
      if c = '"' then
        match rest.getLast? with
        | none => none
        | some d =>
            if d = '"' ∧ (rest.dropLast).all (fun x => x ≠ '"' ∧ x ≠ '\\') then
              some ⟨rest.dropLast⟩
            else none
      else none

/-- The `ast.Spec` variants `VisitSpec` switches on.  `valueSpec` carries
`Names`, `Type`, `Values` (the initializer `Values` are never read by the
emitter); `importSpec` carries the quoted path literal (`d.Path.Value`);
`typeSpec` carries the declared name and the underlying type expression. -/
inductive GoSpec where
  | valueSpec (names : List String) (ty : Expr) (values : List Expr)
  | importSpec (pathValue : String)
  | typeSpec (name : String) (ty : Expr)

/-- The field loop of the `StructType` case of `VisitSpec`:
`p.Pln("%s;", field(f))` for each field. -/
def visitFields (p : Printer) (l : List Field) : Except EmitErr Printer :=
  match l with
  | [] => .ok p
  | f :: rest =>
      match field f with
      | .error e => .error e
      | .ok s => visitFields (p.Pln (s ++ ";")) rest

/-- Function `VisitSpec` of main.go.  `ValueSpec` dispatches on the dynamic type of
`d.Type` (array, pointer, default); `ImportSpec` unquotes the path
(ignoring the error, as the Go code discards it) and emits an include
line; `TypeSpec` emits a typedef for an identifier type and a struct block
for a struct type, and silently emits nothing for any other underlying
type (no `default` case in the Go switch). -/
def VisitSpec (p : Printer) (n : GoSpec) : Except EmitErr Printer :=
  match n with
  | .valueSpec names ty _values =>
      match ty with
      | .arrayType elt len =>
          match names with
          | [] => .error (.panicIdx "value spec names index out of range")
          | name :: _ => .ok (p.Pln (expr elt ++ " " ++ name ++ "[" ++ expr len ++ "];"))
      | .star x =>
          match names with
          | [] => .error (.panicIdx "value spec names index out of range")
          | name :: _ => .ok (p.Pln (expr x ++ "* " ++ name ++ ";"))
      | t =>
          match names with
          | [] => .error (.panicIdx "value spec names index out of range")
          | name :: _ => .ok (p.Pln (expr t ++ " " ++ name ++ ";"))
  | .importSpec pathValue =>
      .ok (p.Pln ("#include <" ++ ((unquote pathValue).getD "") ++ ".h>"))
  | .typeSpec name ty =>
      match ty with
      | .ident tname => .ok (p.Pln ("typedef " ++ tname ++ " " ++ name ++ ";"))
      | .structType fields =>
          match visitFields ((p.Pln ("struct " ++ name ++ " \x7b")).Indent) fields with
          | .error e => .error e
          | .ok q => .ok ((q.Unindent).Pln "\x7d;")
      | _ => .ok p

mutual

/-- The `ast.Stmt` variants `VisitStmt` switches on; `other` stands for
any further dynamic type (the Go switch has no `default`, so those are
silently skipped).  `ifStmt` carries `Init` (never read by the emitter),
`Cond`, `Body`, `Else`; `block` is a bare `*ast.BlockStmt` used as a
statement (only ever matched as an else branch). -/
inductive Stmt where
  | exprStmt (x : Expr)
  | assign (lhs : List Expr) (tok : String) (rhs : List Expr)
  | declStmt (d : Decl)
  | ret (results : List Expr)
  | incDec (x : Expr) (tok : String)
  | ifStmt (ini : Option Stmt) (cond : Expr) (body : List Stmt) (els : Option Stmt)
  | block (list : List Stmt)
  | forStmt (ini : Stmt) (cond : Expr) (post : Stmt) (body : List Stmt)
  | other (kind : String)

/-- The `ast.Decl` variants `VisitDecl` switches on: function
declarations, general declarations (a token plus a spec list; the token is
never read), and `bad` for any other dynamic type (the `default` case,
which calls `log.Fatalf`). -/
inductive Decl where
  | funcDecl (name : String) (params : List Field) (results : List Field) (body : List Stmt)
  | genDecl (tok : String) (specs : List GoSpec)
  | bad (kind : String)

end

/-- Opening of a block in `VisitBlockStmt`: `p.P("{\n")` then `p.Indent()`. -/
def blockStart (p : Printer) : Printer := (p.P "\x7b\n").Indent

/-- Closing of a block in `VisitBlockStmt`: on success, `p.Unindent()`
then `p.Pln("}")`. -/
def blockFinish : Except EmitErr Printer → Except EmitErr Printer
  | .error e => .error e
  | .ok q => .ok ((q.Unindent).Pln "\x7d")

/-- Header computation of `VisitFunction` of main.go, up to the point
where the header line is printed: the fatal multi-result check, the
return type (`void` when no result is declared, the rendered type of
`Results.List[0]` otherwise), and the comma-joined parameter list. -/
def funcSig (name : String) (params results : List Field) : Except EmitErr String :=
  if numFields results > 1 then .error (.fatal "number of return error")
  else
    match (if numFields results > 0 then
             match results with
             | [] => Except.error (EmitErr.panicIdx "results index out of range")
             | f :: _ => Except.ok (expr f.ty)
           else Except.ok "void") with
    | .error e => .error e
    | .ok rettyp =>
        match (if numFields params ≠ 0 then
                 match fieldStrs params with
                 | .error e => Except.error e
                 | .ok l => Except.ok (String.intercalate ", " l)
               else Except.ok "") with
        | .error e => .error e
        | .ok ps => .ok (rettyp ++ " " ++ name ++ "(" ++ ps ++ ")")

mutual

/-- Function `VisitStmt` of main.go.  Block-bearing cases carry the body of
`VisitBlockStmt` spelled out as `blockFinish (VisitStmts (blockStart _) _)`
and the `DeclStmt` case delegates to `VisitDecl`; `AssignStmt` and
`ReturnStmt` read only element 0 of their lists (panicking when empty, as
a Go slice index would); the `ForStmt` case renders init and post into a
fresh scratch printer (reset between the two, keeping its indent) and
trims them with `strings.TrimRight`. -/
def VisitStmt (p : Printer) (n : Stmt) : Except EmitErr Printer :=
  match n with
  | .exprStmt x => .ok (p.Pln (expr x ++ ";"))
  | .assign lhs tok rhs =>
      match lhs with
      | [] => .error (.panicIdx "assign lhs index out of range")
      | l :: _ =>
          match rhs with
          | [] => .error (.panicIdx "assign rhs index out of range")
          | r :: _ => .ok (p.Pln (expr l ++ " " ++ tok ++ " " ++ expr r ++ ";"))
  | .declStmt d => VisitDecl p d
  | .ret results =>
      match results with
      | [] => .error (.panicIdx "return results index out of range")
      | r :: _ => .ok (p.Pln ("return " ++ expr r ++ ";"))
  | .incDec x tok => .ok ((VisitExpr p x).Pln (tok ++ ";"))
  | .ifStmt _ini cond body els =>
      match blockFinish (VisitStmts (blockStart ((VisitExpr (p.Pi "if (") cond).P ") ")) body) with
      | .error e => .error e
      | .ok q => visitElse q els
  | .block _ => .ok p
  | .forStmt ini cond post body =>
      match VisitStmt Printer.new ini with
      | .error e => .error e
      | .ok pp =>
          match VisitStmt ⟨"", pp.indent⟩ post with
          | .error e => .error e
          | .ok pp2 =>
              blockFinish (VisitStmts (blockStart
                (p.Pi ("for (" ++ trimRightSet pp.out ['\n'] ++ " " ++ expr cond ++ "; " ++
                  trimRightSet pp2.out [';', '\n'] ++ ") "))) body)
  | .other _ => .ok p

/-- The `if t.Else != nil` tail of the `IfStmt` case, i.e. the nested
`switch tt := t.Else.(type)` of main.go: an `IfStmt` else branch renders
an inline `else if(<cond>) ` header (condition scratch-rendered by `expr`)
followed by its block only — its own else branch `_e2` is never visited;
a `BlockStmt` else branch renders an `else` line and the block; `none`
models `t.Else == nil` and any other dynamic type matches no case, all
leaving the buffer untouched. -/
def visitElse (q : Printer) (els : Option Stmt) : Except EmitErr Printer :=
  match els with
  | some (.ifStmt _i2 c2 b2 _e2) =>
      blockFinish (VisitStmts (blockStart (q.Pi ("else if(" ++ expr c2 ++ ") "))) b2)
  | some (.block l) => blockFinish (VisitStmts (blockStart (q.Pln "else")) l)
  | _ => .ok q

/-- The statement loop of `VisitBlockStmt`: visit each statement in
order, stopping at the first abort. -/
def VisitStmts (p : Printer) (l : List Stmt) : Except EmitErr Printer :=
  match l with
  | [] => .ok p
  | s :: rest =>
      match VisitStmt p s with
      | .error e => .error e
      | .ok q => VisitStmts q rest

/-- Function `VisitDecl` of main.go: function declarations go to the function
emitter (inlined here as `funcSig` + header line + block; `VisitFunction`
below is recovered as a definitional equality); general declarations
visit `d.Specs[0]` only (a Go slice index, panicking when the spec list
is empty); any other declaration kind is `log.Fatalf`. -/
def VisitDecl (p : Printer) (n : Decl) : Except EmitErr Printer :=
  match n with
  | .funcDecl name params results body =>
      match funcSig name params results with
      | .error e => .error e
      | .ok sig => blockFinish (VisitStmts (blockStart (p.Pln sig)) body)
  | .genDecl _tok specs =>
      match specs with
      | [] => .error (.panicIdx "gen decl specs index out of range")
      | s :: _ => VisitSpec p s
  | .bad kind => .error (.fatal ("unsupport declear type " ++ kind))

end

/-- Function `VisitBlockStmt` of main.go: opening brace, newline, indent, the statements,
unindent, an indented `}` line. -/
def VisitBlockStmt (p : Printer) (l : List Stmt) : Except EmitErr Printer :=
  blockFinish (VisitStmts (blockStart p) l)

/-- Function `VisitFunction` of main.go: the multi-result fatal check and header
computation (`funcSig`), the header line, then the body block. -/
def VisitFunction (p : Printer) (name : String) (params results : List Field)
    (body : List Stmt) : Except EmitErr Printer :=
  match funcSig name params results with
  | .error e => .error e
  | .ok sig => VisitBlockStmt (p.Pln sig) body

/-- Function `VisitFile` of main.go: the top-level declarations in source order. -/
def VisitFile (p : Printer) (decls : List Decl) : Except EmitErr Printer :=
  match decls with
  | [] => .ok p
  | d :: rest =>
      match VisitDecl p d with
      | .error e => .error e
      | .ok q => VisitFile q rest

/-- The `FuncDecl` case of `VisitDecl` is exactly `VisitFunction`, and the
block-bearing statement cases use exactly `VisitBlockStmt`, as in the
source. -/
theorem visitDecl_funcDecl_eq_visitFunction (p : Printer) (name : String)
    (params results : List Field) (body : List Stmt) :
    VisitDecl p (.funcDecl name params results body) =
      VisitFunction p name params results body := by
  unfold VisitDecl VisitFunction VisitBlockStmt
  rfl

/-- Companion normal form of the rendered text of one expression, used
only to state and prove lemmas about `VisitExpr` by structural recursion;
`expr_eq_exprF` below identifies it with the source-derived `expr`. -/
def exprF : Expr → String
  | .basicLit v => v
  | .ident name => fprintfNoArgs name
  | .selector x sel => exprF x ++ ("." ++ sel)
  | .binary x op y => "(" ++ (exprF x ++ (fprintfNoArgs op ++ (exprF y ++ ")")))
  | .unary op x => fprintfNoArgs op ++ exprF x
  | .star x => "*" ++ exprF x
  | .index x idx => exprF x ++ ("[" ++ (exprF idx ++ "]"))
  | .call fn args => exprF fn ++ ("(" ++ (String.intercalate ", " (visitArgs args) ++ ")"))
  | .arrayType _ _ => ""
  | .structType _ => ""
  | .other _ => ""

/-- The expression emitter only appends text and never touches the indent
counter: `VisitExpr p n` is `p` with `exprF n` appended. -/
theorem visitExpr_exprF (p : Printer) (n : Expr) :
    VisitExpr p n = ⟨p.out ++ exprF n, p.indent⟩ :=
  match n with
  | .basicLit v => rfl
  | .ident name => rfl
  | .selector x sel => by
      have hx := fun q => visitExpr_exprF q x
      simp only [VisitExpr, hx, exprF, Printer.P, String.append_assoc]
  | .binary x op y => by
      have hx := fun q => visitExpr_exprF q x
      have hy := fun q => visitExpr_exprF q y
      simp only [VisitExpr, Printer.P, hx, hy, exprF, String.append_assoc]
  | .unary op x => by
      have hx := fun q => visitExpr_exprF q x
      simp only [VisitExpr, Printer.P, hx, exprF, String.append_assoc]
  | .star x => by
      have hx := fun q => visitExpr_exprF q x
      simp only [VisitExpr, Printer.P, hx, exprF, String.append_assoc]
  | .index x idx => by
      have hx := fun q => visitExpr_exprF q x
      have hi := fun q => visitExpr_exprF q idx
      simp only [VisitExpr, Printer.P, hx, hi, exprF, String.append_assoc]
  | .call fn args => by
      have hf := fun q => visitExpr_exprF q fn
      simp only [VisitExpr, Printer.P, hf, exprF, String.append_assoc]
  | .arrayType _ _ => by
      simp only [VisitExpr, exprF, String.append_empty]
  | .structType _ => by
      simp only [VisitExpr, exprF, String.append_empty]
  | .other _ => by
      simp only [VisitExpr, exprF, String.append_empty]

/-- The scratch-rendered text of an expression is its normal form. -/
theorem expr_eq_exprF (n : Expr) : expr n = exprF n := by
  unfold expr
  rw [visitExpr_exprF Printer.new n]
  simp [Printer.new, String.empty_append]

/-- Rendering an expression preserves the indent counter. -/
theorem visitExpr_indent (p : Printer) (n : Expr) : (VisitExpr p n).indent = p.indent := by
  rw [visitExpr_exprF p n]

/-- Rendering an expression appends `expr n` to the buffer. -/
theorem visitExpr_out (p : Printer) (n : Expr) :
    (VisitExpr p n).out = p.out ++ expr n := by
  rw [visitExpr_exprF p n, expr_eq_exprF n]

/-- C5 counterexample: for the modulo operator the token text `%` is
passed to Fprintf as a zero-operand format string, so `a % b` emits as
`(a%!(NOVERB)b)` — not `(` left, operator token text, right `)`, which
would be `(a%b)`. -/
theorem modulo_op_not_token_text :
    expr (.binary (.ident "a") "%" (.ident "b")) = "(a%!(NOVERB)b)" ∧
    ("(a%!(NOVERB)b)" : String) ≠
      "(" ++ expr (.ident "a") ++ "%" ++ expr (.ident "b") ++ ")" := by
  constructor <;> decide

/-- C5 amended: every BinaryOp node renders as `(`, the left operand, the
operator token run through Fprintf with no operands (`fprintfNoArgs`) and
no surrounding spaces, the right operand, `)` — exactly one pair of
parentheses added per BinaryOp, independent of precedence; this holds for
the scratch renderer `expr`, for `VisitExpr` into an arbitrary buffer, and
for `VisitBinExpr`, which contributes the unparenthesized core.  For every
operator token not containing `%` (all Go binary operators except modulo)
the Fprintf pass leaves the token text verbatim, so the original claim
holds there. -/
theorem binaryOp_fully_parenthesized (p : Printer) (x : Expr) (op : String) (y : Expr) :
    expr (.binary x op y) = "(" ++ expr x ++ fprintfNoArgs op ++ expr y ++ ")" ∧
    VisitExpr p (.binary x op y) =
      ⟨p.out ++ ("(" ++ expr x ++ fprintfNoArgs op ++ expr y ++ ")"), p.indent⟩ ∧
    VisitBinExpr p x op y = ⟨p.out ++ expr x ++ fprintfNoArgs op ++ expr y, p.indent⟩ ∧
    ('%' ∉ op.data → fprintfNoArgs op = op) := by
  refine ⟨?_, ?_, ?_, fun h => fprintfNoArgs_no_pct op h⟩
  · rw [expr_eq_exprF, expr_eq_exprF x, expr_eq_exprF y]
    simp [exprF, String.append_assoc]
  · rw [visitExpr_exprF, expr_eq_exprF x, expr_eq_exprF y]
    simp [exprF, String.append_assoc]
  · unfold VisitBinExpr
    simp only [visitExpr_exprF, Printer.P, expr_eq_exprF, String.append_assoc]

/-- Closed instance of C5 at the percent-free operator `<`: the token
passes through Fprintf verbatim and the rendering carries exactly one
pair of parentheses. -/
theorem binaryOp_fully_parenthesized_witness :
    ('%' ∉ ("<" : String).data) ∧
    fprintfNoArgs "<" = "<" ∧
    expr (.binary (.ident "i") "<" (.ident "n")) =
      "(" ++ expr (.ident "i") ++ fprintfNoArgs "<" ++ expr (.ident "n") ++ ")" :=
  ⟨by decide,
   (binaryOp_fully_parenthesized Printer.new (.ident "i") "<" (.ident "n")).2.2.2
     (by decide),
   (binaryOp_fully_parenthesized Printer.new (.ident "i") "<" (.ident "n")).1⟩

/-- C6: an expression shape outside the supported variants (modelled by
`other`, and likewise the type-shape nodes `arrayType` and `structType`,
which `VisitExpr` also has no case for) renders as the empty string: the
emitter leaves the buffer untouched and has no abort path at all (its
result type is a plain `Printer`, not an `Except`). -/
theorem unknown_expr_renders_empty (p : Printer) (kind : String) (elt len : Expr)
    (fields : List (Expr × List String)) :
    VisitExpr p (.other kind) = p ∧ expr (.other kind) = "" ∧
    VisitExpr p (.arrayType elt len) = p ∧ expr (.arrayType elt len) = "" ∧
    VisitExpr p (.structType fields) = p ∧ expr (.structType fields) = "" :=
  ⟨rfl, rfl, rfl, rfl, rfl, rfl⟩

/-- One printer grows into another: same indent depth, text only appended. -/
def Grows (p q : Printer) : Prop := q.indent = p.indent ∧ ∃ s, q.out = p.out ++ s

theorem grows_refl (p : Printer) : Grows p p :=
  ⟨rfl, "", (String.append_empty p.out).symm⟩

theorem grows_trans {p q r : Printer} (h1 : Grows p q) (h2 : Grows q r) : Grows p r := by
  obtain ⟨hi1, s1, ho1⟩ := h1
  obtain ⟨hi2, s2, ho2⟩ := h2
  exact ⟨hi2.trans hi1, s1 ++ s2, by rw [ho2, ho1, String.append_assoc]⟩

theorem grows_P (p : Printer) (s : String) : Grows p (p.P s) := ⟨rfl, s, rfl⟩

theorem grows_Pi (p : Printer) (s : String) : Grows p (p.Pi s) :=
  ⟨rfl, indentStr p.indent ++ s, by simp [Printer.Pi, String.append_assoc]⟩

theorem grows_Pln (p : Printer) (s : String) : Grows p (p.Pln s) :=
  ⟨rfl, indentStr p.indent ++ s ++ "\n", by simp [Printer.Pln, String.append_assoc]⟩

theorem grows_visitExpr (p : Printer) (n : Expr) : Grows p (VisitExpr p n) := by
  rw [visitExpr_exprF]
  exact ⟨rfl, exprF n, rfl⟩

/-- Closing a block undoes exactly the `Indent` performed by `blockStart`,
so the block as a whole only appends text, in brace shape. -/
theorem grows_blockFinish {p q p' : Printer} {l : List Stmt}
    (hq : VisitStmts (blockStart p) l = .ok q) (hg : Grows (blockStart p) q)
    (h : blockFinish (VisitStmts (blockStart p) l) = .ok p') :
    Grows p p' ∧ ∃ s, p'.out = p.out ++ ("\x7b\n" ++ (s ++ (indentStr p.indent ++ "\x7d\n"))) := by
  rw [hq] at h
  obtain ⟨hi, s, ho⟩ := hg
  simp only [blockFinish] at h
  cases h
  have hbi : (blockStart p).indent = p.indent + 1 := rfl
  have hbo : (blockStart p).out = p.out ++ "\x7b\n" := rfl
  constructor
  · refine ⟨?_, "\x7b\n" ++ (s ++ (indentStr p.indent ++ ("\x7d" ++ "\n"))), ?_⟩
    · simp [Printer.Pln, Printer.Unindent, hi, hbi]
    · simp only [Printer.Pln, Printer.Unindent, ho, hbo, hi, hbi]
      simp [String.append_assoc]
  · refine ⟨s, ?_⟩
    simp only [Printer.Pln, Printer.Unindent, ho, hbo, hi, hbi]
    simp [String.append_assoc]

/-- The struct-field loop only appends text at fixed depth. -/
theorem visitFields_grows (l : List Field) :
    ∀ p p', visitFields p l = .ok p' → Grows p p' := by
  induction l with
  | nil =>
      intro p p' h
      simp only [visitFields] at h
      cases h
      exact grows_refl p
  | cons f rest ih =>
      intro p p' h
      simp only [visitFields] at h
      cases hf : field f with
      | error e => rw [hf] at h; cases h
      | ok s =>
          rw [hf] at h
          exact grows_trans (grows_Pln p (s ++ ";")) (ih _ _ h)

/-- Emitting a spec only appends text and restores the indent depth. -/
theorem visitSpec_grows (n : GoSpec) :
    ∀ p p', VisitSpec p n = .ok p' → Grows p p' := by
  cases n with
  | valueSpec names ty values =>
      intro p p' h
      cases ty <;> cases names <;> simp only [VisitSpec] at h <;> cases h <;> apply grows_Pln
  | importSpec pathValue =>
      intro p p' h
      simp only [VisitSpec] at h
      cases h
      apply grows_Pln
  | typeSpec name ty =>
      intro p p' h
      cases ty <;> simp only [VisitSpec] at h
      case ident tname => cases h; apply grows_Pln
      case structType fields =>
        cases hf : visitFields ((p.Pln ("struct " ++ name ++ " \x7b")).Indent) fields with
        | error e => rw [hf] at h; cases h
        | ok q =>
            rw [hf] at h
            cases h
            have hg := visitFields_grows fields _ _ hf
            obtain ⟨hi, s, ho⟩ := hg
            refine ⟨?_, ?_⟩
            · simp only [Printer.Pln, Printer.Unindent, Printer.Indent] at hi ⊢
              omega
            · refine ⟨indentStr p.indent ++ ("struct " ++ name ++ " \x7b") ++ "\n" ++
                (s ++ (indentStr p.indent ++ ("\x7d;" ++ "\n"))), ?_⟩
              simp only [Printer.Pln, Printer.Unindent, Printer.Indent] at hi ho ⊢
              rw [ho]
              simp [hi, String.append_assoc]
      all_goals (cases h; exact grows_refl p)

/-- The struct case of `VisitSpec` opens `struct <name> {`, indents the
field lines, and closes with `};` back at the opening indentation level. -/
theorem visitSpec_struct_shape (p p' : Printer) (name : String) (fields : List Field)
    (h : VisitSpec p (.typeSpec name (.structType fields)) = .ok p') :
    p'.indent = p.indent ∧
    ∃ s, p'.out = p.out ++ (indentStr p.indent ++ ("struct " ++ name ++ " \x7b\n" ++
      (s ++ (indentStr p.indent ++ "\x7d;\n")))) := by
  simp only [VisitSpec] at h
  cases hf : visitFields ((p.Pln ("struct " ++ name ++ " \x7b")).Indent) fields with
  | error e => rw [hf] at h; cases h
  | ok q =>
      rw [hf] at h
      cases h
      obtain ⟨hi, s, ho⟩ := visitFields_grows fields _ _ hf
      simp only [Printer.Pln, Printer.Indent, Printer.Unindent] at hi ho ⊢
      constructor
      · simp [hi]
      · refine ⟨s, ?_⟩
        rw [ho]
        simp [hi, String.append_assoc]

/-- Wrapper around `grows_blockFinish` taking the statement-loop property
as a hypothesis. -/
theorem grows_block {p p' : Printer} (l : List Stmt)
    (hst : ∀ q', VisitStmts (blockStart p) l = .ok q' → Grows (blockStart p) q')
    (h : blockFinish (VisitStmts (blockStart p) l) = .ok p') :
    Grows p p' ∧ ∃ s, p'.out = p.out ++ ("\x7b\n" ++ (s ++ (indentStr p.indent ++ "\x7d\n"))) := by
  cases hq : VisitStmts (blockStart p) l with
  | error e => rw [hq] at h; cases h
  | ok q => exact grows_blockFinish hq (hst q hq) h

mutual

/-- Every successfully emitted statement appends text and restores the
indent depth. -/
theorem visitStmt_grows (n : Stmt) :
    ∀ p p', VisitStmt p n = .ok p' → Grows p p' := by
  cases n with
  | exprStmt x =>
      intro p p' h
      simp only [VisitStmt] at h
      cases h
      apply grows_Pln
  | assign lhs tok rhs =>
      intro p p' h
      cases lhs <;> cases rhs <;> simp only [VisitStmt] at h <;> cases h
      apply grows_Pln
  | declStmt d => exact fun p p' h => visitDecl_grows d p p' h
  | ret results =>
      intro p p' h
      cases results <;> simp only [VisitStmt] at h <;> cases h
      apply grows_Pln
  | incDec x tok =>
      intro p p' h
      simp only [VisitStmt] at h
      cases h
      exact grows_trans (grows_visitExpr p x) (grows_Pln _ _)
  | ifStmt ini cond body els =>
      intro p p' h
      simp only [VisitStmt] at h
      cases hbf : blockFinish (VisitStmts (blockStart
          ((VisitExpr (p.Pi "if (") cond).P ") ")) body) with
      | error e => rw [hbf] at h; cases h
      | ok q =>
          rw [hbf] at h
          have hg1 : Grows p q := by
            have := (grows_block body
              (fun q' hq' => visitStmts_grows body _ q' hq') hbf).1
            exact grows_trans (grows_trans (grows_Pi p "if (")
              (grows_trans (grows_visitExpr _ cond) (grows_P _ ") "))) this
          exact grows_trans hg1 (visitElse_grows els q p' h)
  | block l =>
      intro p p' h
      simp only [VisitStmt] at h
      cases h
      exact grows_refl p
  | forStmt ini cond post body =>
      intro p p' h
      simp only [VisitStmt] at h
      cases h1 : VisitStmt Printer.new ini with
      | error e => simp only [h1] at h; cases h
      | ok pp =>
          simp only [h1] at h
          cases h2 : VisitStmt (⟨"", pp.indent⟩ : Printer) post with
          | error e => simp only [h2] at h; cases h
          | ok pp2 =>
              simp only [h2] at h
              have := (grows_block body
                (fun q' hq' => visitStmts_grows body _ q' hq') h).1
              exact grows_trans (grows_Pi p _) this
  | other kind =>
      intro p p' h
      simp only [VisitStmt] at h
      cases h
      exact grows_refl p

/-- The else dispatch appends text and restores the indent. -/
theorem visitElse_grows (els : Option Stmt) :
    ∀ q p', visitElse q els = .ok p' → Grows q p' := by
  cases els with
  | none =>
      intro q p' h
      simp only [visitElse] at h
      cases h
      exact grows_refl q
  | some e =>
      cases e with
      | ifStmt i2 c2 b2 e2 =>
          intro q p' h
          simp only [visitElse] at h
          have := (grows_block b2
            (fun q' hq' => visitStmts_grows b2 _ q' hq') h).1
          exact grows_trans (grows_Pi q _) this
      | block l =>
          intro q p' h
          simp only [visitElse] at h
          have := (grows_block l
            (fun q' hq' => visitStmts_grows l _ q' hq') h).1
          exact grows_trans (grows_Pln q "else") this
      | exprStmt x => intro q p' h; simp only [visitElse] at h; cases h; exact grows_refl q
      | assign lhs tok rhs => intro q p' h; simp only [visitElse] at h; cases h; exact grows_refl q
      | declStmt d => intro q p' h; simp only [visitElse] at h; cases h; exact grows_refl q
      | ret results => intro q p' h; simp only [visitElse] at h; cases h; exact grows_refl q
      | incDec x tok => intro q p' h; simp only [visitElse] at h; cases h; exact grows_refl q
      | forStmt i c po b => intro q p' h; simp only [visitElse] at h; cases h; exact grows_refl q
      | other k => intro q p' h; simp only [visitElse] at h; cases h; exact grows_refl q

/-- The statement loop of a block appends text and restores the indent. -/
theorem visitStmts_grows (l : List Stmt) :
    ∀ p p', VisitStmts p l = .ok p' → Grows p p' := by
  cases l with
  | nil =>
      intro p p' h
      simp only [VisitStmts] at h
      cases h
      exact grows_refl p
  | cons s rest =>
      intro p p' h
      simp only [VisitStmts] at h
      cases hs : VisitStmt p s with
      | error e => rw [hs] at h; cases h
      | ok q =>
          rw [hs] at h
          exact grows_trans (visitStmt_grows s p q hs) (visitStmts_grows rest q p' h)

/-- Every successfully emitted declaration appends text and restores the
indent depth. -/
theorem visitDecl_grows (d : Decl) :
    ∀ p p', VisitDecl p d = .ok p' → Grows p p' := by
  cases d with
  | funcDecl name params results body =>
      intro p p' h
      simp only [VisitDecl] at h
      cases hs : funcSig name params results with
      | error e => rw [hs] at h; cases h
      | ok sig =>
          rw [hs] at h
          have := (grows_block body
            (fun q' hq' => visitStmts_grows body _ q' hq') h).1
          exact grows_trans (grows_Pln p sig) this
  | genDecl tok specs =>
      intro p p' h
      cases specs with
      | nil => simp only [VisitDecl] at h; cases h
      | cons s rest =>
          simp only [VisitDecl] at h
          exact visitSpec_grows s p p' h
  | bad kind => intro p p' h; simp only [VisitDecl] at h; cases h

end

/-- The whole-file pass appends text and restores the indent depth. -/
theorem visitFile_grows (f : List Decl) :
    ∀ p p', VisitFile p f = .ok p' → Grows p p' := by
  induction f with
  | nil =>
      intro p p' h
      simp only [VisitFile] at h
      cases h
      exact grows_refl p
  | cons d rest ih =>
      intro p p' h
      simp only [VisitFile] at h
      cases hd : VisitDecl p d with
      | error e => rw [hd] at h; cases h
      | ok q =>
          rw [hd] at h
          exact grows_trans (visitDecl_grows d p q hd) (ih q p' h)

/-- C7: for every input accepted without a fatal error, every emitter
restores the indent depth it was entered with (each `Indent` is matched by
an `Unindent` before returning), and each block and struct body closes its
`{` with a `}` (`};`) line written at the indentation level at which it
was opened. -/
theorem indent_restored_and_braces_balanced :
    (∀ (n : Stmt) (p p' : Printer), VisitStmt p n = .ok p' → p'.indent = p.indent) ∧
    (∀ (d : Decl) (p p' : Printer), VisitDecl p d = .ok p' → p'.indent = p.indent) ∧
    (∀ (f : List Decl) (p p' : Printer), VisitFile p f = .ok p' → p'.indent = p.indent) ∧
    (∀ (l : List Stmt) (p p' : Printer), VisitBlockStmt p l = .ok p' →
      p'.indent = p.indent ∧
      ∃ s, p'.out = p.out ++ ("\x7b\n" ++ (s ++ (indentStr p.indent ++ "\x7d\n")))) ∧
    (∀ (name : String) (fields : List Field) (p p' : Printer),
      VisitSpec p (.typeSpec name (.structType fields)) = .ok p' →
      p'.indent = p.indent ∧
      ∃ s, p'.out = p.out ++ (indentStr p.indent ++ ("struct " ++ name ++ " \x7b\n" ++
        (s ++ (indentStr p.indent ++ "\x7d;\n"))))) := by
  refine ⟨?_, ?_, ?_, ?_, ?_⟩
  · exact fun n p p' h => (visitStmt_grows n p p' h).1
  · exact fun d p p' h => (visitDecl_grows d p p' h).1
  · exact fun f p p' h => (visitFile_grows f p p' h).1
  · intro l p p' h
    simp only [VisitBlockStmt] at h
    have := grows_block l (fun q' hq' => visitStmts_grows l _ q' hq') h
    exact ⟨this.1.1, this.2⟩
  · exact fun name fields p p' h => visitSpec_struct_shape p p' name fields h

/-- Closed instance of C7: a two-statement block emitted at depth 2
returns to depth 2 and closes its brace at the opening level. -/
theorem indent_restored_and_braces_balanced_witness :
    VisitBlockStmt (⟨"", 2⟩ : Printer) [.exprStmt (.ident "x"), .ret [.ident "y"]] =
      .ok ⟨"\x7b\n            x;\n            return y;\n        \x7d\n", 2⟩ ∧
    (2 : Nat) = 2 ∧
    ∃ s, ("\x7b\n            x;\n            return y;\n        \x7d\n" : String) =
      "" ++ ("\x7b\n" ++ (s ++ (indentStr 2 ++ "\x7d\n"))) := by
  have h : VisitBlockStmt (⟨"", 2⟩ : Printer) [.exprStmt (.ident "x"), .ret [.ident "y"]] =
      .ok ⟨"\x7b\n            x;\n            return y;\n        \x7d\n", 2⟩ := by decide
  have h2 := (indent_restored_and_braces_balanced.2.2.2.1)
    [.exprStmt (.ident "x"), .ret [.ident "y"]] (⟨"", 2⟩ : Printer)
    (⟨"\x7b\n            x;\n            return y;\n        \x7d\n", 2⟩ : Printer) h
  exact ⟨h, h2.1, h2.2⟩

/-- C8: emission is a pure function of the input tree: two runs of the
Program Emitter from a fresh printer on the same declaration list give the
same result, and in particular byte-identical output text. -/
theorem emission_deterministic (f : List Decl) (r1 r2 : Except EmitErr Printer)
    (h1 : VisitFile Printer.new f = r1) (h2 : VisitFile Printer.new f = r2) :
    r1 = r2 ∧ (∀ p1 p2, r1 = .ok p1 → r2 = .ok p2 → p1.out = p2.out) := by
  subst h1; subst h2
  refine ⟨rfl, ?_⟩
  intro p1 p2 e1 e2
  rw [e1] at e2
  cases e2
  rfl

/-- Closed instance of C8 at a one-import file. -/
theorem emission_deterministic_witness :
    .ok (⟨"#include <os.h>\n", 0⟩ : Printer) = (.ok (⟨"#include <os.h>\n", 0⟩ : Printer) :
      Except EmitErr Printer) ∧
    (∀ p1 p2 : Printer,
      (.ok (⟨"#include <os.h>\n", 0⟩ : Printer) : Except EmitErr Printer) = .ok p1 →
      (.ok (⟨"#include <os.h>\n", 0⟩ : Printer) : Except EmitErr Printer) = .ok p2 →
      p1.out = p2.out) :=
  emission_deterministic [.genDecl "import" [.importSpec "\"os\""]] _ _ (by decide) (by decide)

/-- C9: a general declaration visits only `Specs[0]`: every spec after
the first is dropped, whatever it is. -/
theorem genDecl_emits_first_spec_only (p : Printer) (tok : String) (s : GoSpec)
    (rest : List GoSpec) :
    VisitDecl p (.genDecl tok (s :: rest)) = VisitSpec p s := rfl

/-- C10: when the else branch of an If is itself an If carrying its own
else branch, only the `else if` header and its block are rendered — the
inner else branch (third link of the chain) is dropped: the emission does
not depend on it at all. -/
theorem else_if_third_link_dropped (p : Printer) (ini i2 : Option Stmt) (cond c2 : Expr)
    (body b2 : List Stmt) (e3 : Stmt) :
    VisitStmt p (.ifStmt ini cond body (some (.ifStmt i2 c2 b2 (some e3)))) =
      VisitStmt p (.ifStmt ini cond body (some (.ifStmt i2 c2 b2 none))) := by
  simp only [VisitStmt, visitElse]

/-- C3: the `IncDecStmt` case writes the operand via `VisitExpr` directly
into the destination buffer BEFORE `Pln` writes the indentation spaces and
the operator token, so at depth 1 the emitted line is `i    ++;` — the
indentation lands between the operand and the operator instead of
preceding the whole line as every other statement case does. -/
theorem incDec_operand_precedes_indent :
    (∀ (p : Printer) (x : Expr) (tok : String),
       VisitStmt p (.incDec x tok) = .ok ((VisitExpr p x).Pln (tok ++ ";"))) ∧
    VisitStmt (⟨"", 1⟩ : Printer) (.incDec (.ident "i") "++") = .ok ⟨"i    ++;\n", 1⟩ ∧
    ("i    ++;\n" : String) ≠ "    i++;\n" := by
  refine ⟨fun p x tok => rfl, by decide, by decide⟩

/-- C2 counterexample: a two-target assignment, a two-value return, and a
two-name field are all emitted successfully (no abort, no diagnostic),
with everything after the first element silently dropped. -/
theorem multi_value_not_rejected :
    VisitStmt Printer.new
        (.assign [.ident "a", .ident "b"] "=" [.basicLit "1", .basicLit "2"]) =
      .ok ⟨"a = 1;\n", 0⟩ ∧
    VisitStmt Printer.new (.ret [.ident "a", .ident "b"]) = .ok ⟨"return a;\n", 0⟩ ∧
    field ((Expr.ident "int"), ["a", "b"]) = .ok "int a" := by
  refine ⟨by decide, by decide, by decide⟩

/-- C2 amended: Assignment, Return, and field emission read only element 0
of their left-hand/result/name lists; extra elements are silently ignored
rather than rejected. -/
theorem multi_value_truncated_to_first (p : Printer) (l r x tyx : Expr)
    (ls rs results : List Expr) (tok tname name : String) (names : List String) :
    VisitStmt p (.assign (l :: ls) tok (r :: rs)) =
      .ok (p.Pln (expr l ++ " " ++ tok ++ " " ++ expr r ++ ";")) ∧
    VisitStmt p (.ret (x :: results)) = .ok (p.Pln ("return " ++ expr x ++ ";")) ∧
    field ((Expr.star tyx), name :: names) = .ok (expr tyx ++ "* " ++ name) ∧
    field ((Expr.ident tname), name :: names) =
      .ok (expr (Expr.ident tname) ++ " " ++ name) :=
  ⟨rfl, rfl, rfl, rfl⟩

/-- Fixed For input of the spec's for-loop composition property:
`for i := 0; i < n; i++ { }`. -/
def forFixture : Stmt :=
  .forStmt (.assign [.ident "i"] ":=" [.basicLit "0"])
    (.binary (.ident "i") "<" (.ident "n"))
    (.incDec (.ident "i") "++") []

/-- C1 counterexample: on the fixed input the emitted text is
`for (i := 0; (i<n); i++) ` followed by the braced body — not the literal
`for (i := 0 (i)<(n); i++)` shape the spec asserts (the init keeps its
`;`, and the condition renders as `(i<n)`, parenthesized as a whole). -/
theorem for_header_spec_literal_refuted :
    VisitStmt Printer.new forFixture =
      .ok ⟨"for (i := 0; (i<n); i++) \x7b\n\x7d\n", 0⟩ ∧
    ("for (i := 0; (i<n); i++) \x7b\n\x7d\n" : String) ≠
      "for (i := 0 (i)<(n); i++)" ++ " \x7b\n\x7d\n" := by
  constructor <;> decide

/-- C1 amended: the For header is built exactly by the trimming rule —
init rendered into a fresh scratch printer and stripped of its trailing
line break only (keeping its `;`), the scratch buffer reset (indent kept),
post rendered and stripped of trailing `;` and line breaks, then one
header line `for (<init> <cond>; <post>) ` followed by the braced body;
on the fixed input the header is `for (i := 0; (i<n); i++) `. -/
theorem for_header_trim_rule :
    (∀ (p : Printer) (ini : Stmt) (cond : Expr) (post : Stmt) (body : List Stmt)
        (pp pp2 : Printer),
      VisitStmt Printer.new ini = .ok pp →
      VisitStmt (⟨"", pp.indent⟩ : Printer) post = .ok pp2 →
      VisitStmt p (.forStmt ini cond post body) =
        VisitBlockStmt (p.Pi ("for (" ++ trimRightSet pp.out ['\n'] ++ " " ++ expr cond ++
          "; " ++ trimRightSet pp2.out [';', '\n'] ++ ") ")) body) ∧
    VisitStmt Printer.new forFixture =
      .ok ⟨"for (i := 0; (i<n); i++) \x7b\n\x7d\n", 0⟩ := by
  constructor
  · intro p ini cond post body pp pp2 h1 h2
    simp only [VisitStmt, h1, h2, VisitBlockStmt]
  · decide

/-- Closed instance of C1 at the fixed input, with both scratch renders
discharged concretely. -/
theorem for_header_trim_rule_witness :
    VisitStmt Printer.new (.assign [.ident "i"] ":=" [.basicLit "0"]) =
      .ok ⟨"i := 0;\n", 0⟩ ∧
    VisitStmt (⟨"", 0⟩ : Printer) (.incDec (.ident "i") "++") = .ok ⟨"i++;\n", 0⟩ ∧
    VisitStmt Printer.new forFixture =
      VisitBlockStmt (Printer.new.Pi ("for (" ++ trimRightSet "i := 0;\n" ['\n'] ++ " " ++
        expr (.binary (.ident "i") "<" (.ident "n")) ++ "; " ++
        trimRightSet "i++;\n" [';', '\n'] ++ ") ")) [] :=
  ⟨by decide, by decide,
    for_header_trim_rule.1 Printer.new _ _ _ []
      (⟨"i := 0;\n", 0⟩ : Printer) (⟨"i++;\n", 0⟩ : Printer) (by decide) (by decide)⟩

/-- C4: a function with more than one declared result aborts with the
diagnostic `number of return error` (both through `VisitFunction` and
through `VisitDecl`), and a successfully computed header uses `void` when
no result is declared and the rendered result type when exactly one is. -/
theorem function_result_arity :
    (∀ (p : Printer) (name : String) (params results : List Field) (body : List Stmt),
      1 < numFields results →
      VisitFunction p name params results body = .error (.fatal "number of return error") ∧
      VisitDecl p (.funcDecl name params results body) =
        .error (.fatal "number of return error")) ∧
    (∀ (name : String) (params : List Field) (sig : String),
      funcSig name params [] = .ok sig →
      ∃ ps, sig = "void" ++ " " ++ name ++ "(" ++ ps ++ ")") ∧
    (∀ (name : String) (params : List Field) (f : Field) (sig : String),
      f.names.length ≤ 1 → funcSig name params [f] = .ok sig →
      ∃ ps, sig = expr f.ty ++ " " ++ name ++ "(" ++ ps ++ ")") ∧
    (∀ (p : Printer) (name : String) (params results : List Field) (body : List Stmt)
        (sig : String),
      funcSig name params results = .ok sig →
      VisitFunction p name params results body = VisitBlockStmt (p.Pln sig) body) := by
  refine ⟨?_, ?_, ?_, ?_⟩
  · intro p name params results body h
    have hf : funcSig name params results = .error (.fatal "number of return error") := by
      simp only [funcSig, if_pos h]
    exact ⟨by simp only [VisitFunction, hf], by simp only [VisitDecl, hf]⟩
  · intro name params sig h
    unfold funcSig at h
    split at h
    · cases h
    · split at h
      · cases h
      · next rettyp heq =>
          rw [if_neg (by decide)] at heq
          cases heq
          split at h
          · cases h
          · next ps hps =>
              cases h
              exact ⟨ps, rfl⟩
  · intro name params f sig hle h
    have hpos : 0 < numFields [f] := by
      simp only [numFields, List.foldl]
      split <;> omega
    have hone : ¬ numFields [f] > 1 := by
      simp only [numFields, List.foldl, Field.names] at *
      split <;> omega
    unfold funcSig at h
    rw [if_neg hone, if_pos hpos] at h
    split at h
    · cases h
    · next rettyp heq =>
        cases heq
        split at h
        · cases h
        · next ps hps =>
            cases h
            exact ⟨ps, rfl⟩
  · intro p name params results body sig h
    simp only [VisitFunction, h]

/-- Closed instance of C4: a two-result function aborts, a zero-result
function headers with `void`, a one-result function headers with the
rendered type. -/
theorem function_result_arity_witness :
    (1 < numFields [((Expr.ident "int"), []), ((Expr.ident "bool"), [])]) ∧
    VisitFunction Printer.new "f" []
        [((Expr.ident "int"), []), ((Expr.ident "bool"), [])] [] =
      .error (.fatal "number of return error") ∧
    funcSig "g" [] [] = .ok "void g()" ∧
    (∃ ps, ("void g()" : String) = "void" ++ " " ++ "g" ++ "(" ++ ps ++ ")") ∧
    funcSig "h" [] [((Expr.ident "int"), [])] = .ok "int h()" ∧
    (∃ ps, ("int h()" : String) = expr (Field.ty ((Expr.ident "int"), [])) ++ " " ++
      "h" ++ "(" ++ ps ++ ")") := by
  refine ⟨by decide, ?_, by decide, ?_, by decide, ?_⟩
  · exact (function_result_arity.1 Printer.new "f" []
      [((Expr.ident "int"), []), ((Expr.ident "bool"), [])] [] (by decide)).1
  · exact function_result_arity.2.1 "g" [] "void g()" (by decide)
  · exact function_result_arity.2.2.1 "h" [] ((Expr.ident "int"), []) "int h()"
      (by decide) (by decide)

end Goc
